import Mathlib

/-!
Verification of `fan-controller.py`, a PWM fan-speed controller.

The embedding below mirrors the Python source:
* `FanControllerCfg.__init__` builds the temperature / duty-cycle bucket
  table from validated CLI parameters (`pyRange`, `tempRange`, `dcRange`,
  `runtime_values`);
* the body of `FanController.loop` quantizes the sampled temperature,
  clamps it, looks the bucket up in the table and applies the duty cycle
  when it changed (`quantize`, `clampTemp`, `lookupZ`, `lookupQ`,
  `loopEvents`, `loopApplies`);
* `FanController.pigpio_setup` is a retrying connection/configuration
  step, modelled as a fuel-indexed recursion over a stream of per-attempt
  outcomes (`pigpio_setup`), with the backoff wait `waitInterval`.

Python integers are embedded as `ℤ` (CLI parameters, validated to be
non-negative, as `ℕ`); a Python value that may be `None` is an
`Option ℤ`; the real-valued temperature sample is embedded as `ℚ` with
`Int.floor` standing for `math.floor`.  Python `//` is floor division,
i.e. `Int.fdiv`.
-/

namespace FanCtrl

/-- Python `list(range(start, stop, step))` for a positive `step`:
the elements `start, start+step, …` strictly below `stop`. -/
def pyRange (start stop step : ℤ) : List ℤ :=
  (List.range ((stop - start + step - 1).fdiv step).toNat).map
    (fun i : ℕ => start + (i : ℤ) * step)

/-- The CLI parameters consumed by `FanControllerCfg` (the script also
carries `pwm_pin` and `pwm_freq`, which never enter the bucket-table or
duty-cycle computations and are omitted here). -/
structure Params where
  min_dc : ℕ
  max_dc : ℕ
  precision : ℕ
  deriving DecidableEq

/-- The validation performed on the CLI options before the controller is
constructed (script lines 170–184): `precision ∈ {5,10,25,50}`,
`min_dc ∈ [0,95]`, `max_dc ∈ [5,100]`, `min_dc < max_dc`, and
`(max_dc - min_dc) % precision == 0`.  Non-negativity of the numeric
options is enforced by `isdigit` parsing and is carried by the `ℕ` type. -/
def validParams (p : Params) : Prop :=
  p.precision ∈ [5, 10, 25, 50] ∧
  p.min_dc ≤ 95 ∧
  5 ≤ p.max_dc ∧ p.max_dc ≤ 100 ∧
  p.min_dc < p.max_dc ∧
  (p.max_dc - p.min_dc) % p.precision = 0

instance (p : Params) : Decidable (validParams p) := by
  unfold validParams; infer_instance

/-- `self.min_temp = 30` in `FanControllerCfg.__init__`. -/
def min_temp : ℤ := 30

/-- `self.max_temp = 80` in `FanControllerCfg.__init__`. -/
def max_temp : ℤ := 80

/-- `self.temp_step = (self.max_temp-self.min_temp)//params.get('precision')`. -/
def temp_step (p : Params) : ℤ := (max_temp - min_temp).fdiv p.precision

/-- `self._temp_range = list(range(self.min_temp, self.max_temp+self.temp_step, self.temp_step))`. -/
def tempRange (p : Params) : List ℤ :=
  pyRange min_temp (max_temp + temp_step p) (temp_step p)

/-- `self._dc_step = (params.get('max_dc')-params.get('min_dc'))//params.get('precision')`. -/
def dc_step (p : Params) : ℤ := ((p.max_dc : ℤ) - (p.min_dc : ℤ)).fdiv p.precision

/-- `self._dc_range = list(range(params.get('min_dc'), params.get('max_dc')+self._dc_step, self._dc_step))`. -/
def dcRange (p : Params) : List ℤ :=
  pyRange (p.min_dc : ℤ) ((p.max_dc : ℤ) + dc_step p) (dc_step p)

/-- `runtime_values`: `dict(zip(self._temp_range, self._dc_range))`.  The
temperature thresholds are pairwise distinct, so the dict is faithfully
an association list built by `zip` (which, like Python's `zip`,
truncates to the shorter sequence). -/
def runtime_values (p : Params) : List (ℤ × ℤ) :=
  (tempRange p).zip (dcRange p)

/-- `temp = temp//self._cfg.temp_step*self._cfg.temp_step` (loop line 140):
round the floored temperature down to a multiple of `temp_step`. -/
def quantize (p : Params) (t : ℤ) : ℤ := t.fdiv (temp_step p) * temp_step p

/-- Lines 141–142 of the loop: clamp the quantized temperature into
`[min_temp, max_temp]`. -/
def clampTemp (t : ℤ) : ℤ :=
  let t1 := if t < min_temp then min_temp else t
  if t1 > max_temp then max_temp else t1

/-- `dc = self._cfg.runtime_values.get(temp)` applied to an already
floored temperature: `none` models Python's `None` on a missing key. -/
def lookupZ (p : Params) (t : ℤ) : Option ℤ :=
  (runtime_values p).lookup (clampTemp (quantize p t))

/-- The full per-sample duty-cycle computation of the loop body
(lines 138–143) on the real-valued temperature sample:
`temp = floor(self._cpu.temperature)`, then quantize, clamp and look up. -/
def lookupQ (p : Params) (t : ℚ) : Option ℤ := lookupZ p ⌊t⌋

/-- Index of the bucket a (floored) temperature falls into: the offset of
`clampTemp (quantize p t)` from `min_temp` in units of `temp_step`. -/
def bucketIdx (p : Params) (t : ℤ) : ℕ :=
  ((clampTemp (quantize p t) - 30).fdiv (temp_step p)).toNat

/-- The configuration from the script's own header comment
(`--min-dc 20 --max-dc 40 --precision 10`), used by the spec's
concrete case. -/
def demoParams : Params := ⟨20, 40, 10⟩

/-! ## The control loop (`FanController.loop`) -/

/-- Observable backend actions of the loop thread: `applyDC v` is
`self._pi.set_PWM_dutycycle(self._cfg.pwm_pin, v)` (with `v = none`
modelling Python's `None`), `stopPi` is `self._pi.stop()`. -/
inductive FanEvent
  | applyDC (v : Option ℤ)
  | stopPi
  deriving DecidableEq

/-- `self._dc = 0` in `FanController.__init__` (line 114): the initial
stored duty cycle. -/
def initialDC : Option ℤ := some 0

/-- Trace of backend calls produced by `FanController.loop` (lines
137–151): one iteration per temperature sample drawn while the
cancellation event is unset; when the samples are exhausted the event is
observed set and the cleanup of lines 150–151 runs.  `dcPrev` is the
stored `self._dc`. -/
def loopEvents (p : Params) : Option ℤ → List ℚ → List FanEvent
  | _, [] => [.applyDC (some 0), .stopPi]
  | dcPrev, t :: ts =>
    if lookupQ p t ≠ dcPrev then
      .applyDC (lookupQ p t) :: loopEvents p (lookupQ p t) ts
    else
      loopEvents p dcPrev ts

/-- Number of `set_PWM_dutycycle` calls made by the while-loop body
(lines 145–147) over a list of temperature samples, starting from stored
duty cycle `dcPrev`; the shutdown cleanup is not counted. -/
def loopApplies (p : Params) : Option ℤ → List ℚ → ℕ
  | _, [] => 0
  | dcPrev, t :: ts =>
    if lookupQ p t ≠ dcPrev then 1 + loopApplies p (lookupQ p t) ts
    else loopApplies p dcPrev ts

/-- Modelled from the spec: the number of changes of the computed target
value across a sequence, relative to an initial stored value ("the count
of apply calls equals the count of value changes, not the sample
count"). -/
def specChangeCount : Option ℤ → List (Option ℤ) → ℕ
  | _, [] => 0
  | prev, x :: xs => if x ≠ prev then 1 + specChangeCount x xs else specChangeCount prev xs

/-! ## Order of operations inside one loop iteration -/

/-- The two primitive statements guarded by `if dc != self._dc:` in the
loop body, in source order: line 146 stores the new target into
`self._dc`, line 147 calls the backend. -/
inductive MicroOp
  | storeDC (v : Option ℤ)
  | callApply (v : Option ℤ)
  deriving DecidableEq

/-- The guarded block of lines 145–147 as the ordered list of its
primitive operations for one sample `t`. -/
def iterOps (p : Params) (dcPrev : Option ℤ) (t : ℚ) : List MicroOp :=
  if lookupQ p t ≠ dcPrev then
    [.storeDC (lookupQ p t), .callApply (lookupQ p t)]
  else []

/-- Execute a list of micro operations on the stored duty cycle; when
`applyFails` is true the backend call raises, the remaining operations
are skipped and the exception escapes.  Returns the stored `self._dc` at
exit and whether an exception escaped. -/
def runOps (applyFails : Bool) : List MicroOp → Option ℤ → Option ℤ × Bool
  | [], st => (st, false)
  | .storeDC v :: rest, _ => runOps applyFails rest v
  | .callApply _ :: rest, st =>
    if applyFails then (st, true) else runOps applyFails rest st

/-! ## The retrying setup (`FanController.pigpio_setup`) -/

/-- Outcome of one attempt of the `pigpio_setup` body: `connectFail` is
`pigpio.pi()` yielding an unconnected handle, upon which the code raises
`RuntimeError` (line 128); `programFail` is `set_PWM_frequency` or
`set_PWM_range` raising after a successful connection (lines 129–130);
`ok` is the whole body completing. -/
inductive SetupOutcome
  | connectFail
  | programFail
  | ok
  deriving DecidableEq

/-- `pigpio_setup` under the `tenacity` decorator
`@retry(wait=wait_exponential(max=5))`: with no `stop` and no `retry`
predicate, tenacity re-runs the decorated body after ANY exception,
indefinitely.  `outcomes n` is the outcome of attempt `n`; the fuel
bounds how many attempts we unfold; the result is the index of the first
successful attempt. -/
def pigpio_setup (outcomes : ℕ → SetupOutcome) : ℕ → ℕ → Option ℕ
  | 0, _ => none
  | fuel + 1, n =>
    match outcomes n with
    | .ok => some n
    | _ => pigpio_setup outcomes fuel (n + 1)

/-- Modelled from the spec: a setup that retries only while the backend
is unreachable and propagates a programming failure to the caller
("A failure during this programming step … is not retried — it … is
propagated to the caller"); `none` is that propagated fatal error. -/
def pigpio_setup_spec (outcomes : ℕ → SetupOutcome) : ℕ → ℕ → Option ℕ
  | 0, _ => none
  | fuel + 1, n =>
    match outcomes n with
    | .ok => some n
    | .connectFail => pigpio_setup_spec outcomes fuel (n + 1)
    | .programFail => none

/-- The wait of `tenacity.wait_exponential(max=5)` before retry `k`
(0-based): exponential growth capped at 5 time units.  `tenacity` is an
external library; this follows its documented semantics. -/
def waitInterval (k : ℕ) : ℕ := min 5 (2 ^ k)

/-- Outcome stream whose first attempt fails in the programming step and
whose later attempts succeed. -/
def programFailThenOk : ℕ → SetupOutcome :=
  fun n => if n = 0 then .programFail else .ok

/-- Outcome stream with two unreachable-backend failures, then success. -/
def twoFailThenOk : ℕ → SetupOutcome :=
  fun n => if n < 2 then .connectFail else .ok

/-! ## Derived facts about the bucket table -/

lemma temp_step_spec {p : Params} (h : validParams p) :
    0 < temp_step p ∧ temp_step p * (p.precision : ℤ) = 50 ∧
    temp_step p ∣ 30 ∧ temp_step p ∣ 80 := by
  have hc : p.precision = 5 ∨ p.precision = 10 ∨ p.precision = 25 ∨ p.precision = 50 := by
    have := h.1; simpa using this
  rcases hc with hp | hp | hp | hp <;>
    simp only [temp_step, min_temp, max_temp, hp] <;> decide

lemma dc_step_spec {p : Params} (h : validParams p) :
    0 < dc_step p ∧ dc_step p * (p.precision : ℤ) = (p.max_dc : ℤ) - (p.min_dc : ℤ) := by
  obtain ⟨hmem, -, -, -, hlt, hmod⟩ := h
  have hprec : 0 < p.precision := by
    rcases (by simpa using hmem : p.precision = 5 ∨ p.precision = 10 ∨
      p.precision = 25 ∨ p.precision = 50) with hp | hp | hp | hp <;> omega
  have hdvd : p.precision ∣ p.max_dc - p.min_dc := Nat.dvd_of_mod_eq_zero hmod
  have hcast : ((p.max_dc - p.min_dc : ℕ) : ℤ) = (p.max_dc : ℤ) - (p.min_dc : ℤ) := by
    omega
  have hdvdZ : (p.precision : ℤ) ∣ (p.max_dc : ℤ) - (p.min_dc : ℤ) := by
    rw [← hcast]; exact_mod_cast hdvd
  have hstep : dc_step p = ((p.max_dc : ℤ) - (p.min_dc : ℤ)) / (p.precision : ℤ) :=
    Int.fdiv_eq_ediv _ (by positivity)
  have hmul : dc_step p * (p.precision : ℤ) = (p.max_dc : ℤ) - (p.min_dc : ℤ) := by
    rw [hstep]; exact Int.ediv_mul_cancel hdvdZ
  refine ⟨?_, hmul⟩
  by_contra hle
  push_neg at hle
  have : dc_step p * (p.precision : ℤ) ≤ 0 :=
    mul_nonpos_of_nonpos_of_nonneg hle (by positivity)
  omega

lemma pyRange_add_mul (a step : ℤ) (hstep : 0 < step) (k : ℕ) :
    pyRange a (a + (k : ℤ) * step) step =
      (List.range k).map (fun i : ℕ => a + (i : ℤ) * step) := by
  unfold pyRange
  have hcount : (a + (k : ℤ) * step - a + step - 1).fdiv step = (k : ℤ) := by
    have h1 : a + (k : ℤ) * step - a + step - 1 = (step - 1) + (k : ℤ) * step := by ring
    rw [h1, Int.fdiv_eq_ediv _ (le_of_lt hstep),
      Int.add_mul_ediv_right _ _ (ne_of_gt hstep),
      Int.ediv_eq_zero_of_lt (by omega) (by omega)]
    simp
  rw [hcount]
  simp

lemma tempRange_eq {p : Params} (h : validParams p) :
    tempRange p = (List.range (p.precision + 1)).map
      (fun i : ℕ => 30 + (i : ℤ) * temp_step p) := by
  obtain ⟨hpos, hmul, -, -⟩ := temp_step_spec h
  have hstop : max_temp + temp_step p =
      min_temp + ((p.precision + 1 : ℕ) : ℤ) * temp_step p := by
    push_cast
    simp only [min_temp, max_temp]
    nlinarith [hmul]
  rw [tempRange, hstop, pyRange_add_mul _ _ hpos]
  simp [min_temp]

lemma dcRange_eq {p : Params} (h : validParams p) :
    dcRange p = (List.range (p.precision + 1)).map
      (fun i : ℕ => (p.min_dc : ℤ) + (i : ℤ) * dc_step p) := by
  obtain ⟨hpos, hmul⟩ := dc_step_spec h
  have hstop : (p.max_dc : ℤ) + dc_step p =
      (p.min_dc : ℤ) + ((p.precision + 1 : ℕ) : ℤ) * dc_step p := by
    push_cast
    nlinarith [hmul]
  rw [dcRange, hstop, pyRange_add_mul _ _ hpos]

lemma runtime_values_eq {p : Params} (h : validParams p) :
    runtime_values p = (List.range (p.precision + 1)).map
      (fun i : ℕ => (30 + (i : ℤ) * temp_step p, (p.min_dc : ℤ) + (i : ℤ) * dc_step p)) := by
  rw [runtime_values, tempRange_eq h, dcRange_eq h]
  exact List.zip_map' (fun i : ℕ => 30 + (i : ℤ) * temp_step p)
    (fun i : ℕ => (p.min_dc : ℤ) + (i : ℤ) * dc_step p) (List.range (p.precision + 1))

lemma lookup_map_range (step : ℤ) (hstep : 0 < step) :
    ∀ (n : ℕ) (g : ℕ → ℤ) (a : ℤ) (k : ℕ), k < n →
      List.lookup (a + (k : ℤ) * step)
        ((List.range n).map (fun i : ℕ => (a + (i : ℤ) * step, g i))) = some (g k) := by
  intro n
  induction n with
  | zero => intro g a k hk; omega
  | succ m ih =>
    intro g a k hk
    rw [List.range_succ_eq_map]
    simp only [List.map_cons, List.map_map]
    cases k with
    | zero =>
      simp [List.lookup]
    | succ j =>
      have hne : ((a + ((j + 1 : ℕ) : ℤ) * step) == (a + ((0 : ℕ) : ℤ) * step)) = false := by
        simp only [beq_eq_false_iff_ne, ne_eq]
        push_cast
        intro hcontra
        nlinarith
      rw [List.lookup, hne]
      have hcomp : ((fun i : ℕ => (a + (i : ℤ) * step, g i)) ∘ Nat.succ) =
          (fun i : ℕ => ((a + step) + (i : ℤ) * step, (fun j : ℕ => g (j + 1)) i)) := by
        funext i
        simp only [Function.comp_apply, Nat.succ_eq_add_one]
        have harg : a + ((i + 1 : ℕ) : ℤ) * step = (a + step) + (i : ℤ) * step := by
          push_cast; ring
        rw [harg]
      have hkey : a + ((j + 1 : ℕ) : ℤ) * step = (a + step) + (j : ℤ) * step := by
        push_cast; ring
      rw [hcomp, hkey]
      exact ih (fun j : ℕ => g (j + 1)) (a + step) j (by omega)

lemma clampTemp_bounds (t : ℤ) : 30 ≤ clampTemp t ∧ clampTemp t ≤ 80 := by
  unfold clampTemp
  simp only [min_temp, max_temp]
  split_ifs <;> omega

lemma clampTemp_cases (t : ℤ) :
    clampTemp t = 30 ∨ clampTemp t = 80 ∨ clampTemp t = t := by
  unfold clampTemp
  simp only [min_temp, max_temp]
  split_ifs <;> omega

lemma clampTemp_mono {s t : ℤ} (hst : s ≤ t) : clampTemp s ≤ clampTemp t := by
  unfold clampTemp
  simp only [min_temp, max_temp]
  split_ifs <;> omega

lemma quantize_dvd {p : Params} (t : ℤ) : temp_step p ∣ quantize p t :=
  Dvd.intro _ (by rw [quantize, mul_comm])

lemma quantize_mono {p : Params} (h : validParams p) {s t : ℤ} (hst : s ≤ t) :
    quantize p s ≤ quantize p t := by
  obtain ⟨hpos, -, -, -⟩ := temp_step_spec h
  unfold quantize
  rw [Int.fdiv_eq_ediv _ (le_of_lt hpos), Int.fdiv_eq_ediv _ (le_of_lt hpos)]
  exact mul_le_mul_of_nonneg_right (Int.ediv_le_ediv hpos hst) (le_of_lt hpos)

lemma quantize_le {p : Params} (h : validParams p) (t : ℤ) : quantize p t ≤ t := by
  obtain ⟨hpos, -, -, -⟩ := temp_step_spec h
  unfold quantize
  rw [Int.fdiv_eq_ediv _ (le_of_lt hpos)]
  exact Int.ediv_mul_le t (ne_of_gt hpos)

lemma quantize_ge_80 {p : Params} (h : validParams p) {t : ℤ} (ht : 80 ≤ t) :
    80 ≤ quantize p t := by
  obtain ⟨hpos, -, -, hdvd80⟩ := temp_step_spec h
  unfold quantize
  rw [Int.fdiv_eq_ediv _ (le_of_lt hpos)]
  calc (80 : ℤ) = 80 / temp_step p * temp_step p := (Int.ediv_mul_cancel hdvd80).symm
    _ ≤ t / temp_step p * temp_step p :=
      mul_le_mul_of_nonneg_right (Int.ediv_le_ediv hpos ht) (le_of_lt hpos)

lemma bucketIdx_spec {p : Params} (h : validParams p) (t : ℤ) :
    bucketIdx p t ≤ p.precision ∧
    clampTemp (quantize p t) = 30 + (bucketIdx p t : ℤ) * temp_step p := by
  obtain ⟨hpos, hmul, hdvd30, hdvd80⟩ := temp_step_spec h
  set ts := temp_step p with hts
  set c := clampTemp (quantize p t) with hc
  have hbounds := clampTemp_bounds (quantize p t)
  have hdvdc : ts ∣ c := by
    rcases clampTemp_cases (quantize p t) with h30 | h80 | hq
    · rw [← hc] at h30; rw [h30]; exact hdvd30
    · rw [← hc] at h80; rw [h80]; exact hdvd80
    · rw [← hc] at hq; rw [hq]; exact quantize_dvd t
  have hdvdsub : ts ∣ c - 30 := dvd_sub hdvdc hdvd30
  have hnn : 0 ≤ c - 30 := by omega
  have hfd : (c - 30).fdiv ts = (c - 30) / ts := Int.fdiv_eq_ediv _ (le_of_lt hpos)
  have hdivnn : 0 ≤ (c - 30) / ts := Int.ediv_nonneg hnn (le_of_lt hpos)
  have hcancel : (c - 30) / ts * ts = c - 30 := Int.ediv_mul_cancel hdvdsub
  have htn : ((bucketIdx p t : ℕ) : ℤ) = (c - 30) / ts := by
    rw [bucketIdx, ← hc, ← hts, hfd, Int.toNat_of_nonneg hdivnn]
  have hrepr : c = 30 + (bucketIdx p t : ℤ) * ts := by
    rw [htn]; omega
  refine ⟨?_, hrepr⟩
  have hle : (bucketIdx p t : ℤ) * ts ≤ (p.precision : ℤ) * ts := by
    have h50 : (p.precision : ℤ) * ts = 50 := by rw [mul_comm]; exact hmul
    omega
  have : (bucketIdx p t : ℤ) ≤ (p.precision : ℤ) :=
    le_of_mul_le_mul_right hle hpos
  exact_mod_cast this

lemma bucketIdx_mono {p : Params} (h : validParams p) {s t : ℤ} (hst : s ≤ t) :
    bucketIdx p s ≤ bucketIdx p t := by
  obtain ⟨hpos, -, -, -⟩ := temp_step_spec h
  unfold bucketIdx
  have hq := quantize_mono h hst
  have hcl := clampTemp_mono hq
  rw [Int.fdiv_eq_ediv _ (le_of_lt hpos), Int.fdiv_eq_ediv _ (le_of_lt hpos)]
  exact Int.toNat_le_toNat (Int.ediv_le_ediv hpos (by omega))

lemma bucketIdx_of_le_30 {p : Params} (h : validParams p) {t : ℤ} (ht : t ≤ 30) :
    bucketIdx p t = 0 := by
  obtain ⟨hpos, -, -, -⟩ := temp_step_spec h
  have hq : quantize p t ≤ 30 := le_trans (quantize_le h t) ht
  have hc : clampTemp (quantize p t) = 30 := by
    have := clampTemp_bounds (quantize p t)
    unfold clampTemp at this ⊢
    simp only [min_temp, max_temp] at *
    split_ifs at * <;> omega
  rw [bucketIdx, hc]
  simp

lemma bucketIdx_of_ge_80 {p : Params} (h : validParams p) {t : ℤ} (ht : 80 ≤ t) :
    bucketIdx p t = p.precision := by
  obtain ⟨hpos, hmul, -, -⟩ := temp_step_spec h
  have hq : 80 ≤ quantize p t := quantize_ge_80 h ht
  have hc : clampTemp (quantize p t) = 80 := by
    unfold clampTemp
    simp only [min_temp, max_temp]
    split_ifs <;> omega
  rw [bucketIdx, hc]
  have h50 : (50 : ℤ) = (p.precision : ℤ) * temp_step p := by rw [mul_comm]; exact hmul.symm
  have hsub : ((80 : ℤ) - 30) = (p.precision : ℤ) * temp_step p := by omega
  rw [hsub, Int.fdiv_eq_ediv _ (le_of_lt hpos), Int.mul_ediv_cancel _ (ne_of_gt hpos)]
  simp

lemma lookupZ_eq {p : Params} (h : validParams p) (t : ℤ) :
    lookupZ p t = some ((p.min_dc : ℤ) + (bucketIdx p t : ℤ) * dc_step p) := by
  obtain ⟨hk, hrepr⟩ := bucketIdx_spec h t
  rw [lookupZ, runtime_values_eq h, hrepr]
  exact lookup_map_range (temp_step p) (temp_step_spec h).1 (p.precision + 1)
    (fun i : ℕ => (p.min_dc : ℤ) + (i : ℤ) * dc_step p) 30 (bucketIdx p t) (by omega)

/-! ## Claims about the bucket table and the lookup -/

/-- Claim C1, counterexample: for `min_dc=20, max_dc=40, precision=10`
the lookup at raw temperature 47 does NOT return duty cycle 28 — it
returns 26, since bucket 45 is the fourth threshold and pairs with the
fourth duty-cycle entry 26. -/
theorem lookup47_ne_28 :
    lookupQ demoParams 47 ≠ some 28 ∧ lookupQ demoParams 47 = some 26 := by
  decide

/-- Claim C1, amended: for `min_dc=20, max_dc=40, precision=10`,
construction yields `temp_step=5` and `dc_step=2`, the threshold sequence
`[30,35,40,45,50,55,60,65,70,75,80]` and the duty-cycle sequence
`[20,22,24,26,28,30,32,34,36,38,40]`, and lookup applied to raw
temperature 47 returns duty cycle 26 (47 quantizing to bucket 45). -/
theorem concrete_case_values :
    temp_step demoParams = 5 ∧ dc_step demoParams = 2 ∧
    tempRange demoParams = [30, 35, 40, 45, 50, 55, 60, 65, 70, 75, 80] ∧
    dcRange demoParams = [20, 22, 24, 26, 28, 30, 32, 34, 36, 38, 40] ∧
    lookupQ demoParams 47 = some 26 := by
  decide

/-- Claim C2: for every allowed precision and every valid duty-cycle
pair, the threshold and duty-cycle sequences each contain exactly
`precision + 1` entries, are strictly ascending, have the same length,
and are index-aligned: entry `i` of the bucket table pairs threshold `i`
with duty cycle `i`. -/
theorem bucket_table_invariants {p : Params} (h : validParams p) :
    (tempRange p).length = p.precision + 1 ∧
    (dcRange p).length = p.precision + 1 ∧
    (tempRange p).Pairwise (· < ·) ∧
    (dcRange p).Pairwise (· < ·) ∧
    (runtime_values p).length = p.precision + 1 ∧
    ∀ i : ℕ, i < p.precision + 1 →
      (tempRange p)[i]? = some (30 + (i : ℤ) * temp_step p) ∧
      (dcRange p)[i]? = some ((p.min_dc : ℤ) + (i : ℤ) * dc_step p) ∧
      (runtime_values p)[i]? =
        some (30 + (i : ℤ) * temp_step p, (p.min_dc : ℤ) + (i : ℤ) * dc_step p) := by
  obtain ⟨hts, -, -, -⟩ := temp_step_spec h
  obtain ⟨hds, -⟩ := dc_step_spec h
  refine ⟨?_, ?_, ?_, ?_, ?_, ?_⟩
  · rw [tempRange_eq h, List.length_map, List.length_range]
  · rw [dcRange_eq h, List.length_map, List.length_range]
  · rw [tempRange_eq h, List.pairwise_map]
    refine (List.pairwise_lt_range _).imp ?_
    intro i j hij
    have : (i : ℤ) < (j : ℤ) := by exact_mod_cast hij
    have := mul_lt_mul_of_pos_right this hts
    omega
  · rw [dcRange_eq h, List.pairwise_map]
    refine (List.pairwise_lt_range _).imp ?_
    intro i j hij
    have : (i : ℤ) < (j : ℤ) := by exact_mod_cast hij
    have := mul_lt_mul_of_pos_right this hds
    omega
  · rw [runtime_values_eq h, List.length_map, List.length_range]
  · intro i hi
    refine ⟨?_, ?_, ?_⟩
    · rw [tempRange_eq h]
      simp [List.getElem?_map, List.getElem?_range, hi]
    · rw [dcRange_eq h]
      simp [List.getElem?_map, List.getElem?_range, hi]
    · rw [runtime_values_eq h]
      simp [List.getElem?_map, List.getElem?_range, hi]

/-- Witness for C2 at the configuration of the script's header comment. -/
theorem bucket_table_invariants_witness :
    validParams demoParams ∧
    ((tempRange demoParams).length = demoParams.precision + 1 ∧
    (dcRange demoParams).length = demoParams.precision + 1 ∧
    (tempRange demoParams).Pairwise (· < ·) ∧
    (dcRange demoParams).Pairwise (· < ·) ∧
    (runtime_values demoParams).length = demoParams.precision + 1 ∧
    ∀ i : ℕ, i < demoParams.precision + 1 →
      (tempRange demoParams)[i]? = some (30 + (i : ℤ) * temp_step demoParams) ∧
      (dcRange demoParams)[i]? =
        some ((demoParams.min_dc : ℤ) + (i : ℤ) * dc_step demoParams) ∧
      (runtime_values demoParams)[i]? =
        some (30 + (i : ℤ) * temp_step demoParams,
          (demoParams.min_dc : ℤ) + (i : ℤ) * dc_step demoParams)) :=
  ⟨by decide, bucket_table_invariants (by decide)⟩

/-- Claim C3: under the validated precondition the lookup never misses
the table (it is total), and it returns `min_dc` for every sample
`t ≤ 30` and `max_dc` for every sample `t ≥ 80`. -/
theorem lookup_total_and_boundary {p : Params} (h : validParams p) (t : ℚ) :
    (lookupQ p t).isSome = true ∧
    (t ≤ 30 → lookupQ p t = some (p.min_dc : ℤ)) ∧
    (80 ≤ t → lookupQ p t = some (p.max_dc : ℤ)) := by
  obtain ⟨hds, hmulds⟩ := dc_step_spec h
  refine ⟨?_, ?_, ?_⟩
  · rw [lookupQ, lookupZ_eq h]
    rfl
  · intro ht
    have hfl : ⌊t⌋ ≤ 30 := by
      have := Int.floor_le_floor (α := ℚ) ht
      simpa using this
    rw [lookupQ, lookupZ_eq h, bucketIdx_of_le_30 h hfl]
    simp
  · intro ht
    have hfl : (80 : ℤ) ≤ ⌊t⌋ := by
      rw [Int.le_floor]
      exact_mod_cast ht
    rw [lookupQ, lookupZ_eq h, bucketIdx_of_ge_80 h hfl]
    have : (p.min_dc : ℤ) + (p.precision : ℤ) * dc_step p = (p.max_dc : ℤ) := by
      have : (p.precision : ℤ) * dc_step p = (p.max_dc : ℤ) - (p.min_dc : ℤ) := by
        rw [mul_comm]; exact hmulds
      omega
    rw [this]

/-- Witness for C3 at the demo configuration and sample 25. -/
theorem lookup_total_and_boundary_witness :
    validParams demoParams ∧
    ((lookupQ demoParams 25).isSome = true ∧
    ((25 : ℚ) ≤ 30 → lookupQ demoParams 25 = some (demoParams.min_dc : ℤ)) ∧
    ((80 : ℚ) ≤ 25 → lookupQ demoParams 25 = some (demoParams.max_dc : ℤ))) :=
  ⟨by decide, lookup_total_and_boundary (by decide) 25⟩

/-- Claim C4: under the validated precondition the lookup is monotone
non-decreasing over its whole input domain. -/
theorem lookup_monotone {p : Params} (h : validParams p) {t1 t2 : ℚ} (ht : t1 ≤ t2)
    {v1 v2 : ℤ} (h1 : lookupQ p t1 = some v1) (h2 : lookupQ p t2 = some v2) :
    v1 ≤ v2 := by
  obtain ⟨hds, -⟩ := dc_step_spec h
  rw [lookupQ, lookupZ_eq h, Option.some_inj] at h1 h2
  have hk : bucketIdx p ⌊t1⌋ ≤ bucketIdx p ⌊t2⌋ :=
    bucketIdx_mono h (Int.floor_le_floor ht)
  have hkz : ((bucketIdx p ⌊t1⌋ : ℕ) : ℤ) ≤ ((bucketIdx p ⌊t2⌋ : ℕ) : ℤ) := by
    exact_mod_cast hk
  have := mul_le_mul_of_nonneg_right hkz (le_of_lt hds)
  omega

/-- Witness for C4 at the demo configuration, samples 40 and 63. -/
theorem lookup_monotone_witness :
    validParams demoParams ∧ (40 : ℚ) ≤ 63 ∧
    lookupQ demoParams 40 = some 24 ∧ lookupQ demoParams 63 = some 32 ∧
    (24 : ℤ) ≤ 32 :=
  ⟨by decide, by norm_num, by decide, by decide,
    @lookup_monotone demoParams (by decide) 40 63 (by norm_num) 24 32
      (by decide) (by decide)⟩

/-! ## Claims about the retrying setup -/

lemma setup_first_ok (outcomes : ℕ → SetupOutcome) :
    ∀ (m start : ℕ), (∀ j, j < m → outcomes (start + j) ≠ .ok) →
      outcomes (start + m) = .ok →
      pigpio_setup outcomes (m + 1) start = some (start + m) := by
  intro m
  induction m with
  | zero =>
    intro start hfail hok
    rw [Nat.add_zero] at hok ⊢
    simp [pigpio_setup, hok]
  | succ m ih =>
    intro start hfail hok
    have h0 : outcomes start ≠ .ok := by
      have := hfail 0 (by omega)
      simpa using this
    have hrec : pigpio_setup outcomes (m + 1) (start + 1) = some (start + 1 + m) := by
      refine ih (start + 1) (fun j hj => ?_) ?_
      · have h := hfail (j + 1) (by omega)
        rwa [show start + (j + 1) = start + 1 + j by omega] at h
      · rwa [show start + (m + 1) = start + 1 + m by omega] at hok
    cases hcase : outcomes start with
    | ok => exact absurd hcase h0
    | connectFail =>
      rw [show m + 1 + 1 = (m + 1) + 1 by rfl, pigpio_setup, hcase, hrec]
      rw [show start + 1 + m = start + (m + 1) by omega]
    | programFail =>
      rw [show m + 1 + 1 = (m + 1) + 1 by rfl, pigpio_setup, hcase, hrec]
      rw [show start + 1 + m = start + (m + 1) by omega]

/-- Claim C5, counterexample: a failure in the frequency/range
programming step on the first attempt is retried, not propagated — with
outcome stream `programFail, ok, ok, …` the code's setup succeeds on
attempt 1, whereas the behaviour the spec describes would propagate the
fatal error (`none`). -/
theorem program_failure_retried :
    pigpio_setup programFailThenOk 2 0 = some 1 ∧
    pigpio_setup_spec programFailThenOk 2 0 = none := by
  decide

/-- Claim C5, amended: every exception raised inside `pigpio_setup` —
a programming failure after a successful connection just as much as an
unreachable backend — is retried by the decorator's unbounded policy;
the setup returns at the first attempt whose whole body succeeds. -/
theorem setup_retries_any_failure (outcomes : ℕ → SetupOutcome) (N : ℕ)
    (hfail : ∀ j, j < N → outcomes j ≠ .ok) (hok : outcomes N = .ok) :
    pigpio_setup outcomes (N + 1) 0 = some N := by
  have h := setup_first_ok outcomes N 0 (fun j hj => by simpa using hfail j hj)
    (by simpa using hok)
  simpa using h

/-- Witness for the amended C5: a programming failure on attempt 0 is
retried and setup succeeds on attempt 1. -/
theorem setup_retries_any_failure_witness :
    (∀ j, j < 1 → programFailThenOk j ≠ .ok) ∧ programFailThenOk 1 = .ok ∧
    pigpio_setup programFailThenOk 2 0 = some 1 :=
  ⟨by decide, by decide,
    setup_retries_any_failure programFailThenOk 1 (by decide) (by decide)⟩

/-- Claim C9: if the backend connection fails `N` times and then
succeeds, the retrying setup returns successfully (on attempt `N`), and
the wait between successive attempts is non-decreasing and never exceeds
5 time units. -/
theorem connect_retry_eventually_succeeds (outcomes : ℕ → SetupOutcome) (N : ℕ)
    (hfail : ∀ j, j < N → outcomes j = .connectFail) (hok : outcomes N = .ok) :
    pigpio_setup outcomes (N + 1) 0 = some N ∧
    (∀ k, waitInterval k ≤ 5) ∧
    (∀ k, waitInterval k ≤ waitInterval (k + 1)) := by
  refine ⟨?_, fun k => min_le_left _ _, fun k => ?_⟩
  · have h := setup_first_ok outcomes N 0
      (fun j hj => by rw [Nat.zero_add, hfail j hj]; simp)
      (by simpa using hok)
    simpa using h
  · exact min_le_min le_rfl (Nat.pow_le_pow_right (by norm_num) (by omega))

/-- Witness for C9: two unreachable-backend failures, then success. -/
theorem connect_retry_witness :
    (∀ j, j < 2 → twoFailThenOk j = .connectFail) ∧ twoFailThenOk 2 = .ok ∧
    (pigpio_setup twoFailThenOk 3 0 = some 2 ∧
     (∀ k, waitInterval k ≤ 5) ∧
     (∀ k, waitInterval k ≤ waitInterval (k + 1))) :=
  ⟨by decide, by decide,
    connect_retry_eventually_succeeds twoFailThenOk 2 (by decide) (by decide)⟩

/-! ## Claims about the control loop -/

/-- Claim C6: the backend apply operation is invoked exactly when the
computed target differs from the stored value, so over any finite list
of samples the number of apply calls equals the number of changes of the
computed target relative to the initial stored value. -/
theorem apply_count_eq_change_count {p : Params} (h : validParams p)
    (dc0 : Option ℤ) (samples : List ℚ) :
    loopApplies p dc0 samples = specChangeCount dc0 (samples.map (lookupQ p)) := by
  clear h
  induction samples generalizing dc0 with
  | nil => rfl
  | cons t ts ih =>
    simp only [loopApplies, specChangeCount, List.map_cons]
    by_cases hc : lookupQ p t ≠ dc0
    · rw [if_pos hc, if_pos hc, ih]
    · rw [if_neg hc, if_neg hc, ih]

/-- Witness for C6: demo configuration, samples 47, 47, 63
(two target changes, two apply calls over three samples). -/
theorem apply_count_eq_change_count_witness :
    validParams demoParams ∧
    loopApplies demoParams initialDC [47, 47, 63] =
      specChangeCount initialDC ([47, 47, 63].map (lookupQ demoParams)) :=
  ⟨by decide, apply_count_eq_change_count (by decide) initialDC [47, 47, 63]⟩

/-- Claim C7: when the loop observes cancellation, the trace ends with
exactly one apply of duty cycle 0 followed by exactly one stop of the
driver handle, in that order, as the last actions; the stop occurs
exactly once and no apply call follows it. -/
theorem cleanup_last_and_once {p : Params} (h : validParams p)
    (dc0 : Option ℤ) (samples : List ℚ) :
    (∃ pre, loopEvents p dc0 samples =
        pre ++ [FanEvent.applyDC (some 0), FanEvent.stopPi] ∧
      FanEvent.stopPi ∉ pre) ∧
    (loopEvents p dc0 samples).count FanEvent.stopPi = 1 := by
  clear h
  have main : ∃ pre, loopEvents p dc0 samples =
      pre ++ [FanEvent.applyDC (some 0), FanEvent.stopPi] ∧
      FanEvent.stopPi ∉ pre := by
    induction samples generalizing dc0 with
    | nil => exact ⟨[], rfl, by simp⟩
    | cons t ts ih =>
      by_cases hc : lookupQ p t ≠ dc0
      · obtain ⟨pre, hpre, hnot⟩ := ih (lookupQ p t)
        refine ⟨FanEvent.applyDC (lookupQ p t) :: pre, ?_, ?_⟩
        · simp only [loopEvents, if_pos hc, hpre, List.cons_append]
        · simp [hnot]
      · obtain ⟨pre, hpre, hnot⟩ := ih dc0
        exact ⟨pre, by simp only [loopEvents, if_neg hc, hpre], hnot⟩
  refine ⟨main, ?_⟩
  obtain ⟨pre, hpre, hnot⟩ := main
  rw [hpre, List.count_append, List.count_eq_zero.mpr hnot]
  decide

/-- Witness for C7: demo configuration, a single sample. -/
theorem cleanup_last_and_once_witness :
    validParams demoParams ∧
    ((∃ pre, loopEvents demoParams initialDC [47] =
        pre ++ [FanEvent.applyDC (some 0), FanEvent.stopPi] ∧
      FanEvent.stopPi ∉ pre) ∧
    (loopEvents demoParams initialDC [47]).count FanEvent.stopPi = 1) :=
  ⟨by decide, cleanup_last_and_once (by decide) initialDC [47]⟩

/-- A valid configuration whose `min_dc` is 0, defeating the sentinel. -/
def zeroMinParams : Params := ⟨0, 10, 10⟩

/-- Claim C8, counterexample: with the valid configuration
`min_dc=0, max_dc=10, precision=10` and first sample 25 °C, the first
computed target is 0, which equals the stored sentinel 0, so the first
loop iteration performs NO apply call. -/
theorem first_iteration_no_apply :
    validParams zeroMinParams ∧
    lookupQ zeroMinParams 25 = initialDC ∧
    loopApplies zeroMinParams initialDC [25] = 0 := by
  decide

/-- Claim C8, amended: the stored duty cycle is initialized to the
sentinel 0, and the first loop iteration performs an apply call exactly
when the first computed target differs from 0; in particular, whenever
`min_dc ≥ 1` the first apply always occurs, for every first sample. -/
theorem first_apply_of_pos_min_dc {p : Params} (h : validParams p)
    (hpos : 1 ≤ p.min_dc) (t : ℚ) :
    loopApplies p initialDC [t] = 1 := by
  have hds := (dc_step_spec h).1
  have hneq : lookupQ p t ≠ initialDC := by
    rw [lookupQ, lookupZ_eq h, initialDC]
    intro hcontra
    rw [Option.some_inj] at hcontra
    have h1 : (1 : ℤ) ≤ (p.min_dc : ℤ) := by exact_mod_cast hpos
    have h2 : (0 : ℤ) ≤ (bucketIdx p ⌊t⌋ : ℤ) * dc_step p :=
      mul_nonneg (by positivity) (le_of_lt hds)
    omega
  simp [loopApplies, hneq]

/-- Witness for the amended C8: demo configuration, first sample 47. -/
theorem first_apply_of_pos_min_dc_witness :
    validParams demoParams ∧ 1 ≤ demoParams.min_dc ∧
    loopApplies demoParams initialDC [47] = 1 :=
  ⟨by decide, by decide, first_apply_of_pos_min_dc (by decide) (by decide) 47⟩

/-- Claim C10: in the guarded loop body the stored duty cycle is
assigned the new target before the backend apply call; hence if the
apply call raises, the exception escapes with the stored value already
equal to the target that was never applied to the hardware. -/
theorem state_updated_before_apply (p : Params) (st : Option ℤ) (t : ℚ)
    (hne : lookupQ p t ≠ st) :
    runOps true (iterOps p st t) st = (lookupQ p t, true) := by
  rw [iterOps, if_pos hne]
  rfl

/-- Witness for C10: demo configuration, stored sentinel, sample 47. -/
theorem state_updated_before_apply_witness :
    lookupQ demoParams 47 ≠ initialDC ∧
    runOps true (iterOps demoParams initialDC 47) initialDC =
      (lookupQ demoParams 47, true) :=
  ⟨by decide, state_updated_before_apply demoParams initialDC 47 (by decide)⟩

end FanCtrl
